import Mathlib

/-!
Verification of gantt.py, a one-file Gantt chart renderer.

The development shallowly embeds the data handling of the source file:

* class Package (called WorkPackage by the documentation): the record
  constructor Package.init, the date parser Package._parse_date (here
  parse_date, built on parseMY which models the strptime call with
  format string percent-m dash percent-Y), and the field defaults;
* class Gantt: _loadData (here loadData, over a Document value that
  stands for the decoded JSON object, with None standing for a
  missing, unreadable or undecodable file), _procData (here procData),
  the xlim computation of format (here formatXlim), and the legend
  entry collection of add_legend (here legendEntries).

Machine drawing calls (matplotlib bars, scatter, show, save) carry no
data semantics and are not modeled; every computation feeding them is.

Python exceptions are modeled by the Except monad with the error
taxonomy of the documentation: formatError and validationError stand
for the two ValueError messages raised by Package, dataError stands
for the KeyError / IOError / JSON decoding failures of _loadData, and
pyTypeError stands for the TypeError or AttributeError raised when a
None slot reaches date arithmetic in _procData.
-/

/-- Calendar date, as the year, month and day fields of a Python
datetime value.  Dates produced by the parser always carry day 1. -/
structure Date where
  year : Nat
  month : Nat
  day : Nat
deriving DecidableEq

/-- Error taxonomy of the program, following section 7 of the
documentation.  formatError carries the offending date string, as the
message of the raised ValueError names that string. -/
inductive GanttError where
  | formatError (s : String)
  | validationError
  | dataError (msg : String)
  | pyTypeError
  | emptySeqError
deriving DecidableEq

deriving instance DecidableEq for Except

/-- One entry of the packages array of the input document.  The keys
label, start and end are required by every access path of the source;
the optional keys are Option values, none meaning the key is absent.
The end key is spelled end_ because end is a Lean keyword. -/
structure PkgRecord where
  label : String
  start : String
  end_ : String
  milestones : Option (List String)
  color : Option String
  legend : Option String
deriving DecidableEq

/-- The decoded JSON document handed to Gantt._loadData. -/
structure Document where
  title : Option String
  packages : Option (List PkgRecord)
  xlabel : Option String
  xticks : Option (List String)
deriving DecidableEq

/-- A constructed work package, mirroring the attributes set by
Package.__init__. -/
structure Package where
  label : String
  start : Date
  end_ : Date
  milestones : List Date
  color : String
  legend : Option String
deriving DecidableEq

/-- State written by Gantt._loadData.  The milestones dictionary is an
insertion ordered association list, as a Python dict. -/
structure GanttState where
  title : String
  packages : List Package
  labels : List String
  milestones : List (String × List Date)
  xlabel : String
  xticks : List String
deriving DecidableEq

/-- State written by Gantt._procData: bar parameters.  start and end_
hold day ordinals after the toordinal conversion. -/
structure ProcState where
  nPackages : Nat
  durations : List Int
  start : List Nat
  end_ : List Nat
  yPos : List Nat
deriving DecidableEq

/-- Leap year test of the Python datetime module. -/
def isLeap (y : Nat) : Bool :=
  y % 4 == 0 && (y % 100 != 0 || y % 400 == 0)

/-- Day count of a month, as the _DAYS_IN_MONTH table of datetime. -/
def daysInMonth (y m : Nat) : Nat :=
  if m = 2 then (if isLeap y then 29 else 28)
  else if m = 4 ∨ m = 6 ∨ m = 9 ∨ m = 11 then 30
  else 31

/-- Days in the year before the first of the given month, as
_days_before_month of datetime (months count from 1). -/
def daysBeforeMonth (y : Nat) (m : Nat) : Nat :=
  match m with
  | 0 => 0
  | n + 1 => if n = 0 then 0 else daysBeforeMonth y n + daysInMonth y n

/-- Days before January 1 of the given year, as _days_before_year of
datetime: the proleptic Gregorian count. -/
def daysBeforeYear (y : Nat) : Nat :=
  (y - 1) * 365 + (y - 1) / 4 - (y - 1) / 100 + (y - 1) / 400

/-- datetime.toordinal: day number with January 1 of year 1 as day 1. -/
def toordinal (d : Date) : Nat :=
  daysBeforeYear d.year + daysBeforeMonth d.year d.month + d.day

/-- Python comparison a strictly greater than b on datetime values:
lexicographic on year, month, day. -/
def dateGT (a b : Date) : Bool :=
  decide (b.year < a.year ∨ (b.year = a.year ∧
    (b.month < a.month ∨ (b.month = a.month ∧ b.day < a.day))))

/-- Every date built by the parser satisfies this: a month in 1..12, a
positive year and day 1. -/
def validDate (d : Date) : Prop :=
  1 ≤ d.month ∧ d.month ≤ 12 ∧ 1 ≤ d.year ∧ d.day = 1

instance (d : Date) : Decidable (validDate d) := by
  unfold validDate; infer_instance

/-- Split a character list at its first dash: the strptime pattern has
a literal dash between the month and year directives, the directives
match only digits, so any successful regex match splits there. -/
def splitDash : List Char → Option (List Char × List Char)
  | [] => none
  | c :: cs =>
    if c = '-' then some ([], cs)
    else
      match splitDash cs with
      | none => none
      | some (a, b) => some (c :: a, b)

/-- The strptime month directive: regex alternation 1[0-2] or 0[1-9]
or [1-9], so one or two digit months from 1 to 12.  Character codes:
48 is the digit zero, 49 the digit one, 50 the digit two, 57 nine. -/
def monthVal : List Char → Option Nat
  | [c] =>
    if 49 ≤ c.toNat ∧ c.toNat ≤ 57 then some (c.toNat - 48) else none
  | [c1, c2] =>
    if c1.toNat = 49 ∧ 48 ≤ c2.toNat ∧ c2.toNat ≤ 50 then
      some (10 + (c2.toNat - 48))
    else if c1.toNat = 48 ∧ 49 ≤ c2.toNat ∧ c2.toNat ≤ 57 then
      some (c2.toNat - 48)
    else none
  | _ => none

/-- The strptime year directive over ASCII input: exactly four digit
characters.  In CPython the directive compiles to a regex of four
digit classes without the ASCII flag, so it also matches non ASCII
Unicode decimal digits, whose values the int conversion then reads;
this embedding models the ASCII fragment, codes 48 to 57, on which it
agrees exactly with the source.  Statements that quantify over the
rejected language therefore restrict themselves to ASCII strings. -/
def yearVal : List Char → Option Nat
  | [c1, c2, c3, c4] =>
    if (48 ≤ c1.toNat ∧ c1.toNat ≤ 57) ∧ (48 ≤ c2.toNat ∧ c2.toNat ≤ 57) ∧
       (48 ≤ c3.toNat ∧ c3.toNat ≤ 57) ∧ (48 ≤ c4.toNat ∧ c4.toNat ≤ 57) then
      some ((((c1.toNat - 48) * 10 + (c2.toNat - 48)) * 10 +
        (c3.toNat - 48)) * 10 + (c4.toNat - 48))
    else none
  | _ => none

/-- datetime.strptime with the fixed month dash year format: the whole
string must be consumed, defaults give day 1, and datetime rejects
year 0 (MINYEAR is 1), which strptime surfaces as a ValueError.  The
year digits are modeled over ASCII input, see yearVal. -/
def parseMY (s : String) : Option Date :=
  match splitDash s.toList with
  | none => none
  | some (a, b) =>
    match monthVal a, yearVal b with
    | some m, some y =>
      if 1 ≤ y then some { year := y, month := m, day := 1 } else none
    | _, _ => none

/-- Package._parse_date: any ValueError out of strptime is replaced by
a ValueError whose message names the offending string. -/
def parse_date (s : String) : Except GanttError Date :=
  match parseMY s with
  | some d => .ok d
  | none => .error (.formatError s)

/-- The default bar color of Package.__init__. -/
def DEFCOLOR : String := "#32AEE0"

/-- Left to right effectful map over a list in the Except monad,
modeling Python list comprehensions and loops that may raise: the
first failure aborts the whole computation. -/
def mapME (f : α → Except GanttError β) : List α → Except GanttError (List β)
  | [] => .ok []
  | x :: xs =>
    match f x with
    | .error e => .error e
    | .ok y =>
      match mapME f xs with
      | .error e => .error e
      | .ok ys => .ok (y :: ys)

/-- Package.__init__ over one record: parse start, parse end, check
the order, parse the milestones when the key is present (a missing key
raises KeyError, caught and replaced by the empty list), default the
color, default the legend to None. -/
def Package.init (rec : PkgRecord) : Except GanttError Package :=
  match parse_date rec.start with
  | .error e => .error e
  | .ok startDate =>
    match parse_date rec.end_ with
    | .error e => .error e
    | .ok endDate =>
      if dateGT startDate endDate then .error .validationError
      else
        match rec.milestones with
        | none =>
          .ok { label := rec.label, start := startDate, end_ := endDate,
                milestones := [], color := rec.color.getD DEFCOLOR,
                legend := rec.legend }
        | some ms =>
          match mapME parse_date ms with
          | .error e => .error e
          | .ok mdates =>
            .ok { label := rec.label, start := startDate, end_ := endDate,
                  milestones := mdates, color := rec.color.getD DEFCOLOR,
                  legend := rec.legend }

/-- Python dict assignment on an insertion ordered association list:
replace the value in place when the key exists, append otherwise. -/
def dictInsert (d : List (String × List Date)) (k : String) (v : List Date) :
    List (String × List Date) :=
  match d with
  | [] => [(k, v)]
  | (k0, v0) :: rest =>
    if k0 = k then (k, v) :: rest else (k0, v0) :: dictInsert rest k v

/-- Python key membership test on the dictionary model. -/
def dictHasKey (d : List (String × List Date)) (k : String) : Bool :=
  d.any (fun kv => kv.1 == k)

/-- Gantt._loadData.  The input is None when the file is missing,
unreadable or not valid JSON; otherwise the decoded document.  Access
order follows the source: title first, then the packages loop, then
the labels comprehension, then the milestones dictionary (the except
AttributeError around its loop can never fire, because Package.__init__
always sets the milestones attribute, so every package receives an
entry), then the xlabel and xticks defaults. -/
def loadData (input : Option Document) : Except GanttError GanttState :=
  match input with
  | none => .error (.dataError "cannot read or decode the data file")
  | some data =>
    match data.title with
    | none => .error (.dataError "title")
    | some title =>
      match data.packages with
      | none => .error (.dataError "packages")
      | some records =>
        match mapME Package.init records with
        | .error e => .error e
        | .ok packages =>
          .ok { title := title,
                packages := packages,
                labels := records.map PkgRecord.label,
                milestones := packages.foldl
                  (fun d pkg => dictInsert d pkg.label pkg.milestones) [],
                xlabel := data.xlabel.getD "",
                xticks := data.xticks.getD [] }

/-- Python list.index: index of the first occurrence.  The source only
calls it on labels known to be present; the out of range value for an
absent element is never reached in the verified paths. -/
def listIndex (x : String) : List String → Nat
  | [] => 0
  | y :: ys => if y = x then 0 else listIndex x ys + 1

/-- One iteration of the slot filling loop of _procData: write the
start and end dates of the package at the first index of its label. -/
def fillStep (labels : List String)
    (acc : List (Option Date) × List (Option Date)) (pkg : Package) :
    List (Option Date) × List (Option Date) :=
  (acc.1.set (listIndex pkg.label labels) (some pkg.start),
   acc.2.set (listIndex pkg.label labels) (some pkg.end_))

/-- The slot filling loop of _procData, starting from two None filled
arrays of length nPackages. -/
def fillSlots (labels : List String) (packages : List Package) :
    List (Option Date) × List (Option Date) :=
  packages.foldl (fillStep labels)
    (List.replicate labels.length none, List.replicate labels.length none)

/-- Duration of one slot pair: timedelta days between two midnight
datetimes, which is the ordinal difference.  A None in either slot
models the TypeError raised by subtracting None values. -/
def durOf (se : Option Date × Option Date) : Except GanttError Int :=
  match se with
  | (some s, some e) => .ok ((toordinal e : Int) - (toordinal s : Int))
  | _ => .error .pyTypeError

/-- Ordinal of one slot: toordinal on a datetime, AttributeError
(modeled by the same fatal error) on None. -/
def ordOf (o : Option Date) : Except GanttError Nat :=
  match o with
  | some d => .ok (toordinal d)
  | none => .error .pyTypeError

/-- Gantt._procData: fill the positional slots by label index, take
durations, convert both slot arrays to ordinals, and lay out yPos as
numpy arange from nPackages down to 1. -/
def procData (st : GanttState) : Except GanttError ProcState :=
  let fill := fillSlots st.labels st.packages
  match mapME durOf (fill.1.zip fill.2) with
  | .error e => .error e
  | .ok ds =>
    match mapME ordOf fill.1 with
    | .error e => .error e
    | .ok starts =>
      match mapME ordOf fill.2 with
      | .error e => .error e
      | .ok ends =>
        .ok { nPackages := st.labels.length,
              durations := ds,
              start := starts,
              end_ := ends,
              yPos := (List.range st.labels.length).map
                (fun i => st.labels.length - i) }

/-- Gantt.__init__: load then process. -/
def ganttInit (input : Option Document) :
    Except GanttError (GanttState × ProcState) :=
  match loadData input with
  | .error e => .error e
  | .ok st =>
    match procData st with
    | .error e => .error e
    | .ok p => .ok (st, p)

/-- The xlim computation of Gantt.format: min over the start ordinals
and max over the end ordinals.  Python min and max raise ValueError on
an empty sequence, and min runs first. -/
def formatXlim (p : ProcState) : Except GanttError (Nat × Nat) :=
  match p.start, p.end_ with
  | [], _ => .error .emptySeqError
  | _ :: _, [] => .error .emptySeqError
  | s :: ss, e :: es =>
    .ok ((ss.foldl Nat.min s), (es.foldl Nat.max e))

/-- The label setting loop of Gantt.add_legend: a bar receives a label
exactly when its package has a truthy legend field (None and the empty
string are falsy in Python).  Returns the pairs of bar index and
legend text, in package order. -/
def legendEntries (labels : List String) (packages : List Package) :
    List (Nat × String) :=
  packages.filterMap (fun pkg =>
    match pkg.legend with
    | none => none
    | some s => if s = "" then none else some (listIndex pkg.label labels, s))

/-- True exactly on the ok values of Except. -/
def isOkE (x : Except GanttError α) : Bool :=
  match x with
  | .ok _ => true
  | .error _ => false

/-- True exactly on dataError results. -/
def isDataError (x : Except GanttError α) : Bool :=
  match x with
  | .error (.dataError _) => true
  | _ => false

/-- The fixed two digit month, four digit year pattern as the
documentation words it: exactly MM dash YYYY with a zero padded two
digit month from 01 to 12 and four year digits.  Stated from the
specification for comparison with the parser actually in the source. -/
def specTwoDigitPattern (s : String) : Bool :=
  match s.toList with
  | [m1, m2, dash, y1, y2, y3, y4] =>
    dash = '-' &&
    ((m1.toNat = 48 && 49 ≤ m2.toNat && m2.toNat ≤ 57) ||
     (m1.toNat = 49 && 48 ≤ m2.toNat && m2.toNat ≤ 50)) &&
    (48 ≤ y1.toNat && y1.toNat ≤ 57) && (48 ≤ y2.toNat && y2.toNat ≤ 57) &&
    (48 ≤ y3.toNat && y3.toNat ≤ 57) && (48 ≤ y4.toNat && y4.toNat ≤ 57)
  | _ => false

/-- The month year language the source parser accepts over ASCII
strings, stated independently over the raw character list: a one
digit month 1..9 or a two digit month 01..12, a dash, and exactly
four digits not all zero (year 0 is out of range for datetime).  The
month alternation and the dash are ASCII literals in the strptime
pattern, so only the year position is sensitive to the Unicode digit
matching described at yearVal; outside ASCII the source can accept
strings this pattern does not cover. -/
def specLoosePattern (s : String) : Bool :=
  match s.toList with
  | [m, dash, y1, y2, y3, y4] =>
    dash = '-' && (49 ≤ m.toNat && m.toNat ≤ 57) &&
    (48 ≤ y1.toNat && y1.toNat ≤ 57) && (48 ≤ y2.toNat && y2.toNat ≤ 57) &&
    (48 ≤ y3.toNat && y3.toNat ≤ 57) && (48 ≤ y4.toNat && y4.toNat ≤ 57) &&
    !(y1.toNat = 48 && y2.toNat = 48 && y3.toNat = 48 && y4.toNat = 48)
  | [m1, m2, dash, y1, y2, y3, y4] =>
    dash = '-' &&
    ((m1.toNat = 48 && 49 ≤ m2.toNat && m2.toNat ≤ 57) ||
     (m1.toNat = 49 && 48 ≤ m2.toNat && m2.toNat ≤ 50)) &&
    (48 ≤ y1.toNat && y1.toNat ≤ 57) && (48 ≤ y2.toNat && y2.toNat ≤ 57) &&
    (48 ≤ y3.toNat && y3.toNat ≤ 57) && (48 ≤ y4.toNat && y4.toNat ≤ 57) &&
    !(y1.toNat = 48 && y2.toNat = 48 && y3.toNat = 48 && y4.toNat = 48)
  | _ => false

/-- True when every character of the string is ASCII.  The embedding
of the date parser is exact on these strings: the only Unicode
sensitive directive of the strptime pattern is the year, whose digit
classes coincide with codes 48 to 57 on ASCII input.  Rejection
statements about the parser are restricted to this domain. -/
def isAsciiStr (s : String) : Bool :=
  s.data.all (fun c => c.toNat ≤ 127)

/-- Month day year formatting of the canonical MM dash YYYY string for
a month and year pair: zero padded digit characters. -/
def digitChar (n : Nat) : Char := Char.ofNat (48 + n)

/-- Two digit zero padded month text. -/
def pad2 (m : Nat) : List Char := [digitChar (m / 10), digitChar (m % 10)]

/-- Four digit zero padded year text. -/
def pad4 (y : Nat) : List Char :=
  [digitChar (y / 1000), digitChar (y / 100 % 10),
   digitChar (y / 10 % 10), digitChar (y % 10)]

/-- The canonical MM dash YYYY string of a month and year pair; every
valid string of the documented date format arises this way. -/
def formatMY (m y : Nat) : String := ⟨pad2 m ++ '-' :: pad4 y⟩

/-- The sample single package document of the end to end scenario. -/
def D1 : Document :=
  { title := some "T",
    packages := some [
      { label := "A", start := "01-2021", end_ := "03-2021",
        milestones := none, color := none, legend := none } ],
    xlabel := none, xticks := none }

/-- The package built from the single record of D1. -/
def pkgA1 : Package :=
  { label := "A", start := { year := 2021, month := 1, day := 1 },
    end_ := { year := 2021, month := 3, day := 1 },
    milestones := [], color := DEFCOLOR, legend := none }

/-- The load state of D1. -/
def st1 : GanttState :=
  { title := "T", packages := [pkgA1], labels := ["A"],
    milestones := [("A", [])], xlabel := "", xticks := [] }

/-- The processed state of D1: ordinal 737791 is January 1 of 2021 and
737850 is March 1 of 2021, 59 days later. -/
def p1 : ProcState :=
  { nPackages := 1, durations := [59], start := [737791],
    end_ := [737850], yPos := [1] }

/-- A record with a single digit month in its start date. -/
def recLoose : PkgRecord :=
  { label := "B", start := "1-2021", end_ := "03-2021",
    milestones := none, color := none, legend := none }

/-- A record whose end precedes its start. -/
def recRev : PkgRecord :=
  { label := "C", start := "03-2021", end_ := "01-2021",
    milestones := none, color := none, legend := none }

/-- The single record of D1, used on its own by witnesses. -/
def recA1 : PkgRecord :=
  { label := "A", start := "01-2021", end_ := "03-2021",
    milestones := none, color := none, legend := none }

/-- A record whose start date has the year written first. -/
def recBad : PkgRecord :=
  { label := "E", start := "2020-01", end_ := "03-2021",
    milestones := none, color := none, legend := none }

/-- The load state of a document with title T and no packages. -/
def st0 : GanttState :=
  { title := "T", packages := [], labels := [], milestones := [],
    xlabel := "", xticks := [] }

/-- A document with the required title but an empty packages array. -/
def D0 : Document :=
  { title := some "T", packages := some [], xlabel := none, xticks := none }

/-- A document missing the required title key. -/
def DnoTitle : Document :=
  { title := none, packages := some [], xlabel := none, xticks := none }

/-- The processed state of a document with no packages. -/
def emptyProc : ProcState :=
  { nPackages := 0, durations := [], start := [], end_ := [], yPos := [] }

/-- A document whose two packages share the label A. -/
def D2 : Document :=
  { title := some "T",
    packages := some [
      { label := "A", start := "01-2021", end_ := "03-2021",
        milestones := none, color := none, legend := none },
      { label := "A", start := "02-2021", end_ := "04-2021",
        milestones := none, color := none, legend := none } ],
    xlabel := none, xticks := none }

/-- The load state of D2: both packages land in the state, the labels
list repeats A, the dictionary holds the overwritten single entry. -/
def st2 : GanttState :=
  { title := "T",
    packages := [pkgA1,
      { label := "A", start := { year := 2021, month := 2, day := 1 },
        end_ := { year := 2021, month := 4, day := 1 },
        milestones := [], color := DEFCOLOR, legend := none }],
    labels := ["A", "A"],
    milestones := [("A", [])], xlabel := "", xticks := [] }

/-- A document with two distinct packages, A then B. -/
def D3 : Document :=
  { title := some "T",
    packages := some [
      { label := "A", start := "01-2021", end_ := "03-2021",
        milestones := none, color := none, legend := none },
      { label := "B", start := "02-2021", end_ := "04-2021",
        milestones := none, color := none, legend := none } ],
    xlabel := none, xticks := none }

/-- The load state of D3. -/
def st3 : GanttState :=
  { title := "T",
    packages := [pkgA1,
      { label := "B", start := { year := 2021, month := 2, day := 1 },
        end_ := { year := 2021, month := 4, day := 1 },
        milestones := [], color := DEFCOLOR, legend := none }],
    labels := ["A", "B"],
    milestones := [("A", []), ("B", [])], xlabel := "", xticks := [] }

/-- The processed state of D3: ordinals for February 1 and April 1 of
2021 are 737822 and 737881. -/
def p3 : ProcState :=
  { nPackages := 2, durations := [59, 59], start := [737791, 737822],
    end_ := [737850, 737881], yPos := [2, 1] }


theorem mapME_length {α β : Type} {f : α → Except GanttError β} (xs : List α) :
    ∀ ys, mapME f xs = .ok ys → ys.length = xs.length := by
  induction xs with
  | nil =>
    intro ys h
    simp only [mapME] at h
    cases h
    rfl
  | cons x xs ih =>
    intro ys h
    simp only [mapME] at h
    cases hf : f x with
    | error e => rw [hf] at h; cases h
    | ok y =>
      rw [hf] at h
      cases hm : mapME f xs with
      | error e => rw [hm] at h; cases h
      | ok ys2 =>
        rw [hm] at h
        cases h
        simp [ih ys2 hm]

theorem mapME_getElem?_fwd {α β : Type} {f : α → Except GanttError β}
    (xs : List α) : ∀ (ys : List β) (i : Nat) (x : α),
      mapME f xs = .ok ys → xs[i]? = some x →
      ∃ y, ys[i]? = some y ∧ f x = .ok y := by
  induction xs with
  | nil =>
    intro ys i x _ hx
    simp at hx
  | cons a xs ih =>
    intro ys i x h hx
    simp only [mapME] at h
    cases hf : f a with
    | error e => rw [hf] at h; cases h
    | ok y =>
      rw [hf] at h
      cases hm : mapME f xs with
      | error e => rw [hm] at h; cases h
      | ok ys2 =>
        rw [hm] at h
        cases h
        cases i with
        | zero =>
          simp only [List.getElem?_cons_zero] at hx ⊢
          cases hx
          exact ⟨y, rfl, hf⟩
        | succ n =>
          simp only [List.getElem?_cons_succ] at hx ⊢
          exact ih ys2 n x hm hx

theorem mapME_getElem?_bwd {α β : Type} {f : α → Except GanttError β}
    (xs : List α) : ∀ (ys : List β) (i : Nat) (y : β),
      mapME f xs = .ok ys → ys[i]? = some y →
      ∃ x, xs[i]? = some x ∧ f x = .ok y := by
  induction xs with
  | nil =>
    intro ys i y h hy
    simp only [mapME] at h
    cases h
    simp at hy
  | cons a xs ih =>
    intro ys i y h hy
    simp only [mapME] at h
    cases hf : f a with
    | error e => rw [hf] at h; cases h
    | ok y0 =>
      rw [hf] at h
      cases hm : mapME f xs with
      | error e => rw [hm] at h; cases h
      | ok ys2 =>
        rw [hm] at h
        cases h
        cases i with
        | zero =>
          simp only [List.getElem?_cons_zero] at hy ⊢
          cases hy
          exact ⟨a, rfl, hf⟩
        | succ n =>
          simp only [List.getElem?_cons_succ] at hy ⊢
          exact ih ys2 n y hm hy

theorem mapME_not_ok {α β : Type} {f : α → Except GanttError β}
    (xs : List α) (x : α) (hx : x ∈ xs) (hf : isOkE (f x) = false) :
    isOkE (mapME f xs) = false := by
  induction xs with
  | nil => cases hx
  | cons a xs ih =>
    simp only [mapME]
    cases hfa : f a with
    | error e => rfl
    | ok y =>
      rcases List.mem_cons.mp hx with rfl | hmem
      · rw [hfa] at hf
        simp [isOkE] at hf
      · cases hm : mapME f xs with
        | error e => rfl
        | ok ys =>
          have := ih hmem
          rw [hm] at this
          simp [isOkE] at this

theorem listIndex_le_of_getElem (x : String) (ls : List String) :
    ∀ i, ls[i]? = some x → listIndex x ls ≤ i := by
  induction ls with
  | nil => intro i h; simp at h
  | cons y ys ih =>
    intro i h
    cases i with
    | zero =>
      simp only [List.getElem?_cons_zero] at h
      cases h
      simp [listIndex]
    | succ n =>
      simp only [List.getElem?_cons_succ] at h
      by_cases hy : y = x
      · simp [listIndex, hy]
      · simp only [listIndex, if_neg hy]
        exact Nat.succ_le_succ (ih n h)

theorem getElem?_listIndex (x : String) (ls : List String)
    (h : listIndex x ls < ls.length) : ls[listIndex x ls]? = some x := by
  induction ls with
  | nil => simp [listIndex] at h
  | cons y ys ih =>
    by_cases hy : y = x
    · simp [listIndex, hy]
    · simp only [listIndex, if_neg hy] at h ⊢
      simp only [List.getElem?_cons_succ]
      exact ih (Nat.lt_of_succ_lt_succ h)

theorem daysBeforeMonth_succ_le (y m : Nat) :
    daysBeforeMonth y m ≤ daysBeforeMonth y (m + 1) := by
  cases m with
  | zero => simp [daysBeforeMonth]
  | succ n =>
    conv_rhs => rw [daysBeforeMonth]
    simp only [Nat.succ_ne_zero, if_false]
    exact Nat.le_add_right _ _

theorem daysBeforeMonth_mono (y : Nat) {m m2 : Nat} (h : m ≤ m2) :
    daysBeforeMonth y m ≤ daysBeforeMonth y m2 := by
  induction m2 with
  | zero =>
    cases Nat.le_zero.mp h
    exact Nat.le_refl _
  | succ n ih =>
    rcases Nat.lt_or_ge m (n + 1) with hlt | hge
    · exact Nat.le_trans (ih (Nat.lt_succ_iff.mp hlt)) (daysBeforeMonth_succ_le y n)
    · have hm : m = n + 1 := Nat.le_antisymm h hge
      subst hm
      exact Nat.le_refl _

theorem daysBeforeMonth_le_335 (y : Nat) {m : Nat} (h : m ≤ 12) :
    daysBeforeMonth y m ≤ 335 := by
  have h12 : daysBeforeMonth y 12 ≤ 335 := by
    cases hl : isLeap y <;>
      simp [daysBeforeMonth, daysInMonth, hl]
  exact Nat.le_trans (daysBeforeMonth_mono y h) h12

theorem daysBeforeYear_step (z : Nat) :
    daysBeforeYear (z + 1) + 365 ≤ daysBeforeYear (z + 2) := by
  unfold daysBeforeYear
  simp only [Nat.succ_sub_one]
  have e4 := Nat.succ_div z 4
  have e100 := Nat.succ_div z 100
  have e400 := Nat.succ_div z 400
  have h41 : (4 : Nat) ∣ 100 := by norm_num
  have h42 : (100 : Nat) ∣ 400 := by norm_num
  by_cases h100 : 100 ∣ z + 1
  · have h4 : 4 ∣ z + 1 := dvd_trans h41 h100
    by_cases h400 : 400 ∣ z + 1
    · rw [e4, e100, e400, if_pos h4, if_pos h100, if_pos h400]; omega
    · rw [e4, e100, e400, if_pos h4, if_pos h100, if_neg h400]; omega
  · have h400 : ¬ 400 ∣ z + 1 := fun hc => h100 (dvd_trans h42 hc)
    by_cases h4 : 4 ∣ z + 1
    · rw [e4, e100, e400, if_pos h4, if_neg h100, if_neg h400]; omega
    · rw [e4, e100, e400, if_neg h4, if_neg h100, if_neg h400]; omega

theorem daysBeforeYear_mono {y1 y2 : Nat} (h : y1 ≤ y2) :
    daysBeforeYear y1 ≤ daysBeforeYear y2 := by
  induction y2 with
  | zero =>
    cases Nat.le_zero.mp h
    exact Nat.le_refl _
  | succ n ih =>
    rcases Nat.lt_or_ge y1 (n + 1) with hlt | hge
    · refine Nat.le_trans (ih (Nat.lt_succ_iff.mp hlt)) ?_
      cases n with
      | zero => simp [daysBeforeYear]
      | succ k =>
        exact Nat.le_trans (Nat.le_add_right _ 365) (daysBeforeYear_step k)
    · have hy : y1 = n + 1 := Nat.le_antisymm h hge
      subst hy
      exact Nat.le_refl _

theorem daysBeforeYear_gap {y1 y2 : Nat} (h1 : 1 ≤ y1) (h : y1 < y2) :
    daysBeforeYear y1 + 365 ≤ daysBeforeYear y2 := by
  obtain ⟨k, rfl⟩ : ∃ k, y1 = k + 1 := ⟨y1 - 1, by omega⟩
  exact Nat.le_trans (daysBeforeYear_step k) (daysBeforeYear_mono (by omega))

theorem toordinal_mono {a b : Date} (ha : validDate a) (hb : validDate b)
    (h : dateGT a b = false) : toordinal a ≤ toordinal b := by
  obtain ⟨ham, ham12, hay, had⟩ := ha
  obtain ⟨hbm, hbm12, hby, hbd⟩ := hb
  unfold dateGT at h
  simp only [decide_eq_false_iff_not] at h
  rcases not_or.mp h with ⟨hy1, h2⟩
  rcases Nat.lt_or_ge a.year b.year with hlt | hge
  · unfold toordinal
    have hc1 : daysBeforeMonth a.year a.month ≤ 335 :=
      daysBeforeMonth_le_335 _ ham12
    have hc2 : daysBeforeYear a.year + 365 ≤ daysBeforeYear b.year :=
      daysBeforeYear_gap hay hlt
    omega
  · have hyy : a.year = b.year := Nat.le_antisymm (Nat.le_of_not_lt hy1) hge
    have h3 : ¬ (b.month < a.month ∨ (b.month = a.month ∧ b.day < a.day)) :=
      fun hc => h2 ⟨hyy.symm, hc⟩
    rcases not_or.mp h3 with ⟨hm1, _⟩
    have hmono : daysBeforeMonth b.year a.month ≤ daysBeforeMonth b.year b.month :=
      daysBeforeMonth_mono b.year (Nat.le_of_not_lt hm1)
    unfold toordinal
    rw [hyy]
    omega

theorem monthVal_bounds (a : List Char) (m : Nat) (h : monthVal a = some m) :
    1 ≤ m ∧ m ≤ 12 := by
  match a with
  | [] => simp [monthVal] at h
  | [c] =>
    simp only [monthVal] at h
    split at h
    · cases h; omega
    · cases h
  | [c1, c2] =>
    simp only [monthVal] at h
    split at h
    · cases h; omega
    · split at h
      · cases h; omega
      · cases h
  | c1 :: c2 :: c3 :: rest => simp [monthVal] at h

theorem parseMY_valid (s : String) (d : Date) (h : parseMY s = some d) :
    validDate d := by
  cases hsp : splitDash s.toList with
  | none =>
    simp only [parseMY, hsp] at h
    exact Option.noConfusion h
  | some ab =>
    obtain ⟨a, b⟩ := ab
    cases hm : monthVal a with
    | none =>
      simp only [parseMY, hsp, hm] at h
      exact Option.noConfusion h
    | some m =>
      cases hy : yearVal b with
      | none =>
        simp only [parseMY, hsp, hm, hy] at h
        exact Option.noConfusion h
      | some y =>
        simp only [parseMY, hsp, hm, hy] at h
        split at h
        · cases h
          have hb := monthVal_bounds a m hm
          refine ⟨hb.1, hb.2, ?_, rfl⟩
          show 1 ≤ y
          omega
        · cases h

theorem parse_date_valid (s : String) (d : Date)
    (h : parse_date s = .ok d) : validDate d := by
  cases hp : parseMY s with
  | none => simp [parse_date, hp] at h
  | some d0 =>
    simp only [parse_date, hp, Except.ok.injEq] at h
    subst h
    exact parseMY_valid s d0 hp

theorem Package.init_ok (rec : PkgRecord) (pkg : Package)
    (h : Package.init rec = .ok pkg) :
    pkg.label = rec.label ∧ validDate pkg.start ∧ validDate pkg.end_ ∧
    dateGT pkg.start pkg.end_ = false ∧
    (rec.color = none → pkg.color = DEFCOLOR) ∧ pkg.legend = rec.legend := by
  cases hs : parse_date rec.start with
  | error e => simp [Package.init, hs] at h
  | ok sd =>
    cases he : parse_date rec.end_ with
    | error e => simp [Package.init, hs, he] at h
    | ok ed =>
      cases hgt : dateGT sd ed with
      | true => simp [Package.init, hs, he, hgt] at h
      | false =>
        cases hml : rec.milestones with
        | none =>
          simp only [Package.init, hs, he, hgt, hml, Bool.false_eq_true,
            if_false, Except.ok.injEq] at h
          subst h
          refine ⟨rfl, parse_date_valid _ _ hs, parse_date_valid _ _ he,
            hgt, ?_, rfl⟩
          intro hc
          simp [hc]
        | some ms =>
          cases hmm : mapME parse_date ms with
          | error e => simp [Package.init, hs, he, hgt, hml, hmm] at h
          | ok mdates =>
            simp only [Package.init, hs, he, hgt, hml, hmm, Bool.false_eq_true,
              if_false, Except.ok.injEq] at h
            subst h
            refine ⟨rfl, parse_date_valid _ _ hs, parse_date_valid _ _ he,
              hgt, ?_, rfl⟩
            intro hc
            simp [hc]

theorem dictHasKey_insert (d : List (String × List Date)) (k : String)
    (v : List Date) (l : String) :
    dictHasKey (dictInsert d k v) l = (dictHasKey d l || (k == l)) := by
  induction d with
  | nil =>
    show ((k == l) || false) = (false || (k == l))
    cases (k == l) <;> rfl
  | cons kv rest ih =>
    obtain ⟨k0, v0⟩ := kv
    show dictHasKey
      (if k0 = k then (k, v) :: rest else (k0, v0) :: dictInsert rest k v) l = _
    by_cases hk : k0 = k
    · subst hk
      rw [if_pos rfl]
      show ((k0 == l) || dictHasKey rest l) =
        (((k0 == l) || dictHasKey rest l) || (k0 == l))
      cases (k0 == l) <;> cases dictHasKey rest l <;> rfl
    · rw [if_neg hk]
      show ((k0 == l) || dictHasKey (dictInsert rest k v) l) =
        (((k0 == l) || dictHasKey rest l) || (k == l))
      rw [ih]
      cases (k0 == l) <;> cases dictHasKey rest l <;> cases (k == l) <;> rfl

theorem dictHasKey_fold (pkgs : List Package) :
    ∀ (d : List (String × List Date)) (l : String),
      dictHasKey
        (pkgs.foldl (fun d pkg => dictInsert d pkg.label pkg.milestones) d) l
      = (dictHasKey d l || pkgs.any (fun p => p.label == l)) := by
  induction pkgs with
  | nil => intro d l; simp
  | cons pkg pkgs ih =>
    intro d l
    simp only [List.foldl_cons, List.any_cons]
    rw [ih, dictHasKey_insert]
    cases dictHasKey d l <;> cases (pkg.label == l) <;>
      cases pkgs.any (fun p => p.label == l) <;> rfl

theorem loadData_inv (input : Option Document) (st : GanttState)
    (h : loadData input = .ok st) :
    ∃ records, mapME Package.init records = .ok st.packages ∧
      st.labels = records.map PkgRecord.label ∧
      st.milestones = st.packages.foldl
        (fun d pkg => dictInsert d pkg.label pkg.milestones) [] := by
  cases input with
  | none =>
    simp only [loadData] at h
    exact Except.noConfusion h
  | some data =>
    cases hti : data.title with
    | none =>
      simp only [loadData, hti] at h
      exact Except.noConfusion h
    | some t =>
      cases hpk : data.packages with
      | none =>
        simp only [loadData, hti, hpk] at h
        exact Except.noConfusion h
      | some records =>
        cases hmp : mapME Package.init records with
        | error e =>
          simp only [loadData, hti, hpk, hmp] at h
          exact Except.noConfusion h
        | ok pkgs =>
          simp only [loadData, hti, hpk, hmp, Except.ok.injEq] at h
          subst h
          exact ⟨records, hmp, rfl, rfl⟩

theorem loadData_wf (input : Option Document) (st : GanttState)
    (h : loadData input = .ok st) (pkg : Package) (hmem : pkg ∈ st.packages) :
    validDate pkg.start ∧ validDate pkg.end_ ∧
    dateGT pkg.start pkg.end_ = false := by
  obtain ⟨records, hmp, -, -⟩ := loadData_inv input st h
  obtain ⟨i, hi⟩ := List.getElem?_of_mem hmem
  obtain ⟨rec, -, hinit⟩ := mapME_getElem?_bwd records st.packages i pkg hmp hi
  obtain ⟨-, hs, he, hgt, -, -⟩ := Package.init_ok rec pkg hinit
  exact ⟨hs, he, hgt⟩

theorem loadData_labels (input : Option Document) (st : GanttState)
    (h : loadData input = .ok st) :
    st.packages.map Package.label = st.labels := by
  obtain ⟨records, hmp, hlab, -⟩ := loadData_inv input st h
  rw [hlab]
  apply List.ext_getElem?
  intro i
  rw [List.getElem?_map, List.getElem?_map]
  cases hp : st.packages[i]? with
  | none =>
    have hlen := mapME_length records st.packages hmp
    have hrn : records[i]? = none := by
      rw [List.getElem?_eq_none_iff] at hp ⊢
      omega
    rw [hrn]
    rfl
  | some pkg =>
    obtain ⟨rec, hrec, hinit⟩ := mapME_getElem?_bwd records _ i pkg hmp hp
    obtain ⟨hl, -⟩ := Package.init_ok rec pkg hinit
    rw [hrec]
    simp [hl]

theorem listIndex_ne_of_dup (labels : List String) {i j : Nat}
    (hij : i < j) (hjl : j < labels.length) (heq : labels[i]? = labels[j]?) :
    ∀ x, listIndex x labels ≠ j := by
  intro x hx
  have h1 : labels[j]? = some x := by
    have h0 := getElem?_listIndex x labels (by omega)
    rwa [hx] at h0
  have h2 : labels[i]? = some x := heq.trans h1
  have h3 := listIndex_le_of_getElem x labels i h2
  omega

theorem fillFold_length (labels : List String) (ps : List Package) :
    ∀ acc : List (Option Date) × List (Option Date),
      (ps.foldl (fillStep labels) acc).1.length = acc.1.length ∧
      (ps.foldl (fillStep labels) acc).2.length = acc.2.length := by
  induction ps with
  | nil => intro acc; exact ⟨rfl, rfl⟩
  | cons pkg ps ih =>
    intro acc
    simp only [List.foldl_cons]
    obtain ⟨h1, h2⟩ := ih (fillStep labels acc pkg)
    rw [h1, h2]
    simp [fillStep]

theorem fillSlots_length (labels : List String) (ps : List Package) :
    (fillSlots labels ps).1.length = labels.length ∧
    (fillSlots labels ps).2.length = labels.length := by
  have hf := fillFold_length labels ps
    (List.replicate labels.length none, List.replicate labels.length none)
  simpa [fillSlots] using hf

theorem fillFold_unwritten (labels : List String) (j : Nat) :
    ∀ (ps : List Package) (acc : List (Option Date) × List (Option Date)),
      (∀ pkg ∈ ps, listIndex pkg.label labels ≠ j) →
      (ps.foldl (fillStep labels) acc).1[j]? = acc.1[j]? ∧
      (ps.foldl (fillStep labels) acc).2[j]? = acc.2[j]? := by
  intro ps
  induction ps with
  | nil => intro acc _; exact ⟨rfl, rfl⟩
  | cons pkg ps ih =>
    intro acc hj
    simp only [List.foldl_cons]
    have hne : listIndex pkg.label labels ≠ j := hj pkg (List.mem_cons_self _ _)
    obtain ⟨h1, h2⟩ := ih (fillStep labels acc pkg)
      (fun p hp => hj p (List.mem_cons_of_mem _ hp))
    rw [h1, h2]
    exact ⟨List.getElem?_set_ne hne, List.getElem?_set_ne hne⟩

theorem fillFold_pair (labels : List String) (j : Nat) :
    ∀ (ps : List Package) (acc : List (Option Date) × List (Option Date)),
      acc.1.length = acc.2.length →
      (((ps.foldl (fillStep labels) acc).1[j]? = acc.1[j]? ∧
        (ps.foldl (fillStep labels) acc).2[j]? = acc.2[j]?) ∨
       (∃ pkg, pkg ∈ ps ∧
        (ps.foldl (fillStep labels) acc).1[j]? = some (some pkg.start) ∧
        (ps.foldl (fillStep labels) acc).2[j]? = some (some pkg.end_))) := by
  intro ps
  induction ps with
  | nil => intro acc _; exact Or.inl ⟨rfl, rfl⟩
  | cons pkg ps ih =>
    intro acc hlen
    simp only [List.foldl_cons]
    have hlen2 : (fillStep labels acc pkg).1.length =
        (fillStep labels acc pkg).2.length := by
      simp [fillStep, hlen]
    rcases ih (fillStep labels acc pkg) hlen2 with ⟨h1, h2⟩ | ⟨p, hp, h1, h2⟩
    · by_cases hidx : listIndex pkg.label labels = j
      · by_cases hlt : j < acc.1.length
        · refine Or.inr ⟨pkg, List.mem_cons_self _ _, ?_, ?_⟩
          · rw [h1]
            show (acc.1.set (listIndex pkg.label labels) (some pkg.start))[j]? = _
            rw [hidx]
            exact List.getElem?_set_self hlt
          · rw [h2]
            show (acc.2.set (listIndex pkg.label labels) (some pkg.end_))[j]? = _
            rw [hidx]
            exact List.getElem?_set_self (by omega)
        · refine Or.inl ⟨?_, ?_⟩
          · rw [h1]
            show (acc.1.set (listIndex pkg.label labels) (some pkg.start))[j]? = _
            rw [List.set_eq_of_length_le (by omega)]
          · rw [h2]
            show (acc.2.set (listIndex pkg.label labels) (some pkg.end_))[j]? = _
            rw [List.set_eq_of_length_le (by omega)]
      · refine Or.inl ⟨?_, ?_⟩
        · rw [h1]
          exact List.getElem?_set_ne hidx
        · rw [h2]
          exact List.getElem?_set_ne hidx
    · exact Or.inr ⟨p, List.mem_cons_of_mem _ hp, h1, h2⟩

theorem splitDash_append (l : List Char) :
    ∀ a b, splitDash l = some (a, b) → l = a ++ '-' :: b := by
  induction l with
  | nil =>
    intro a b h
    simp only [splitDash] at h
    exact Option.noConfusion h
  | cons c cs ih =>
    intro a b h
    simp only [splitDash] at h
    by_cases hc : c = '-'
    · rw [if_pos hc] at h
      cases h
      simp [hc]
    · rw [if_neg hc] at h
      cases hsp : splitDash cs with
      | none => rw [hsp] at h; exact Option.noConfusion h
      | some ab0 =>
        obtain ⟨a0, b0⟩ := ab0
        rw [hsp] at h
        cases h
        simpa using ih a0 b hsp

theorem monthVal_shape (a : List Char) (m : Nat) (h : monthVal a = some m) :
    (∃ c, a = [c] ∧ 49 ≤ c.toNat ∧ c.toNat ≤ 57) ∨
    (∃ c1 c2, a = [c1, c2] ∧
      ((c1.toNat = 49 ∧ 48 ≤ c2.toNat ∧ c2.toNat ≤ 50) ∨
       (c1.toNat = 48 ∧ 49 ≤ c2.toNat ∧ c2.toNat ≤ 57))) := by
  match a with
  | [] => simp [monthVal] at h
  | [c] =>
    simp only [monthVal] at h
    split at h
    · exact Or.inl ⟨c, rfl, by omega⟩
    · exact Option.noConfusion h
  | [c1, c2] =>
    simp only [monthVal] at h
    split at h
    · exact Or.inr ⟨c1, c2, rfl, Or.inl (by assumption)⟩
    · split at h
      · exact Or.inr ⟨c1, c2, rfl, Or.inr (by assumption)⟩
      · exact Option.noConfusion h
  | c1 :: c2 :: c3 :: rest => simp [monthVal] at h

theorem yearVal_shape (b : List Char) (y : Nat) (h : yearVal b = some y) :
    ∃ d1 d2 d3 d4, b = [d1, d2, d3, d4] ∧
      (48 ≤ d1.toNat ∧ d1.toNat ≤ 57) ∧ (48 ≤ d2.toNat ∧ d2.toNat ≤ 57) ∧
      (48 ≤ d3.toNat ∧ d3.toNat ≤ 57) ∧ (48 ≤ d4.toNat ∧ d4.toNat ≤ 57) ∧
      y = (((d1.toNat - 48) * 10 + (d2.toNat - 48)) * 10 +
        (d3.toNat - 48)) * 10 + (d4.toNat - 48) := by
  match b with
  | [] | [_] | [_, _] | [_, _, _] => simp [yearVal] at h
  | [d1, d2, d3, d4] =>
    simp only [yearVal] at h
    split at h
    · rename_i hc
      obtain ⟨hc1, hc2, hc3, hc4⟩ := hc
      cases h
      exact ⟨d1, d2, d3, d4, rfl, hc1, hc2, hc3, hc4, rfl⟩
    · exact Option.noConfusion h
  | _ :: _ :: _ :: _ :: _ :: _ => simp [yearVal] at h

theorem parseMY_loose (s : String) (d : Date) (h : parseMY s = some d) :
    specLoosePattern s = true := by
  cases hsp : splitDash s.toList with
  | none =>
    simp only [parseMY, hsp] at h
    exact Option.noConfusion h
  | some ab =>
    obtain ⟨a, b⟩ := ab
    cases hm : monthVal a with
    | none =>
      simp only [parseMY, hsp, hm] at h
      exact Option.noConfusion h
    | some m =>
      cases hy : yearVal b with
      | none =>
        simp only [parseMY, hsp, hm, hy] at h
        exact Option.noConfusion h
      | some y =>
        simp only [parseMY, hsp, hm, hy] at h
        split at h
        · have hlist := splitDash_append s.toList a b hsp
          obtain ⟨d1, d2, d3, d4, hb, h1, h2, h3, h4, hyv⟩ :=
            yearVal_shape b y hy
          subst hb
          subst hyv
          rcases monthVal_shape a m hm with ⟨c, ha, hc1, hc2⟩ |
            ⟨c1, c2, ha, hcs⟩
          · subst ha
            have hs2 : s.toList = [c, '-', d1, d2, d3, d4] := by
              simpa using hlist
            simp only [specLoosePattern, hs2, Bool.and_eq_true,
              decide_eq_true_eq, Bool.not_eq_true', decide_eq_false_iff_not,
              Bool.or_eq_true, Bool.and_eq_false_iff, true_and, and_true]
            omega
          · subst ha
            have hs2 : s.toList = [c1, c2, '-', d1, d2, d3, d4] := by
              simpa using hlist
            simp only [specLoosePattern, hs2, Bool.and_eq_true,
              decide_eq_true_eq, Bool.not_eq_true', decide_eq_false_iff_not,
              Bool.or_eq_true, Bool.and_eq_false_iff, true_and, and_true]
            omega
        · exact Option.noConfusion h

theorem parse_date_outside_loose (s : String)
    (hpat : specLoosePattern s = false) :
    parse_date s = .error (.formatError s) := by
  cases hp : parseMY s with
  | none => simp [parse_date, hp]
  | some d =>
    have ht := parseMY_loose s d hp
    rw [ht] at hpat
    exact Bool.noConfusion hpat

theorem digitChar_toNat {d : Nat} (h : d ≤ 9) : (digitChar d).toNat = 48 + d := by
  interval_cases d <;> decide

theorem digitChar_ne_dash {d : Nat} (h : d ≤ 9) : digitChar d ≠ '-' := by
  interval_cases d <;> decide

theorem splitDash_pair (c1 c2 : Char) (l : List Char)
    (h1 : c1 ≠ '-') (h2 : c2 ≠ '-') :
    splitDash (c1 :: c2 :: '-' :: l) = some ([c1, c2], l) := by
  simp [splitDash, h1, h2]

theorem yearVal_pad4 {y : Nat} (h : y ≤ 9999) : yearVal (pad4 y) = some y := by
  have h1 : y / 1000 ≤ 9 := by omega
  have h2 : y / 100 % 10 ≤ 9 := by omega
  have h3 : y / 10 % 10 ≤ 9 := by omega
  have h4 : y % 10 ≤ 9 := by omega
  simp only [pad4, yearVal, digitChar_toNat h1, digitChar_toNat h2,
    digitChar_toNat h3, digitChar_toNat h4]
  rw [if_pos (by omega)]
  congr 1
  omega

theorem monthVal_pad2 {m : Nat} (h1 : 1 ≤ m) (h2 : m ≤ 12) :
    monthVal (pad2 m) = some m := by
  have ha : m / 10 ≤ 9 := by omega
  have hb : m % 10 ≤ 9 := by omega
  simp only [pad2, monthVal, digitChar_toNat ha, digitChar_toNat hb]
  by_cases hm : m < 10
  · rw [if_neg (by omega), if_pos (by omega)]
    congr 1
    omega
  · rw [if_pos (by omega)]
    congr 1
    omega

theorem parseMY_formatMY {m y : Nat} (h1 : 1 ≤ m) (h2 : m ≤ 12)
    (h3 : 1 ≤ y) (h4 : y ≤ 9999) :
    parseMY (formatMY m y) = some { year := y, month := m, day := 1 } := by
  have hsp : splitDash (formatMY m y).toList = some (pad2 m, pad4 y) := by
    show splitDash
      (digitChar (m / 10) :: digitChar (m % 10) :: '-' :: pad4 y) = _
    exact splitDash_pair _ _ _ (digitChar_ne_dash (by omega))
      (digitChar_ne_dash (by omega))
  simp only [parseMY, hsp, monthVal_pad2 h1 h2, yearVal_pad4 h4]
  rw [if_pos h3]

theorem procData_ok_inv (st : GanttState) (p : ProcState)
    (h : procData st = .ok p) :
    mapME durOf ((fillSlots st.labels st.packages).1.zip
      (fillSlots st.labels st.packages).2) = .ok p.durations ∧
    mapME ordOf (fillSlots st.labels st.packages).1 = .ok p.start ∧
    mapME ordOf (fillSlots st.labels st.packages).2 = .ok p.end_ ∧
    p.nPackages = st.labels.length ∧
    p.yPos = (List.range st.labels.length).map
      (fun i => st.labels.length - i) := by
  cases hd : mapME durOf ((fillSlots st.labels st.packages).1.zip
      (fillSlots st.labels st.packages).2) with
  | error e =>
    simp only [procData, hd] at h
    exact Except.noConfusion h
  | ok ds =>
    cases hs : mapME ordOf (fillSlots st.labels st.packages).1 with
    | error e =>
      simp only [procData, hd, hs] at h
      exact Except.noConfusion h
    | ok starts =>
      cases he : mapME ordOf (fillSlots st.labels st.packages).2 with
      | error e =>
        simp only [procData, hd, hs, he] at h
        exact Except.noConfusion h
      | ok ends =>
        simp only [procData, hd, hs, he, Except.ok.injEq] at h
        subst h
        exact ⟨rfl, rfl, rfl, rfl, rfl⟩

theorem procData_not_ok (st : GanttState)
    (h : isOkE (mapME durOf ((fillSlots st.labels st.packages).1.zip
      (fillSlots st.labels st.packages).2)) = false) :
    isOkE (procData st) = false := by
  cases hd : mapME durOf ((fillSlots st.labels st.packages).1.zip
      (fillSlots st.labels st.packages).2) with
  | error e =>
    simp only [procData, hd]
    rfl
  | ok ds =>
    rw [hd] at h
    exact absurd h (by simp [isOkE])

theorem ganttInit_not_ok (input : Option Document) (st : GanttState)
    (hld : loadData input = .ok st) (h : isOkE (procData st) = false) :
    isOkE (ganttInit input) = false := by
  cases hp : procData st with
  | error e =>
    simp only [ganttInit, hld, hp]
    rfl
  | ok p =>
    rw [hp] at h
    exact absurd h (by simp [isOkE])

/-- C1 (counterexample): the end to end scenario document D1, whose
single package declares no milestones, still loads into a state whose
milestones map is not empty; the map holds the entry A mapped to the
empty list, because the except AttributeError filter in _loadData can
never fire. -/
theorem milestones_map_entry_without_milestones :
    loadData (some D1) = .ok st1 ∧
    st1.packages.all (fun p => p.milestones.isEmpty) = true ∧
    st1.milestones.isEmpty = false :=
  ⟨by decide, by decide, by decide⟩

/-- C1 (amended): for every loaded document, the milestones map built
during Load contains an entry for a label exactly when some
constructed package bears that label, whether or not that package
declares milestones; packages without milestones contribute an entry
mapped to the empty list rather than being left out. -/
theorem milestones_map_entry_iff_label (input : Option Document)
    (st : GanttState) (h : loadData input = .ok st) (l : String) :
    dictHasKey st.milestones l = st.packages.any (fun p => p.label == l) := by
  obtain ⟨records, -, -, hms⟩ := loadData_inv input st h
  rw [hms, dictHasKey_fold]
  rfl

/-- C1 (witness): the amended statement evaluated on D1. -/
theorem milestones_map_entry_iff_label_witness :
    dictHasKey st1.milestones "A" =
      st1.packages.any (fun p => p.label == "A") :=
  milestones_map_entry_iff_label (some D1) st1 (by decide) "A"

/-- C2: a document missing the top level title or packages key always
fails to load with a DataError, and so does a missing, unreadable or
undecodable input file. -/
theorem loadData_missing_key_dataError :
    (∀ doc : Document, doc.title = none ∨ doc.packages = none →
      isDataError (loadData (some doc)) = true) ∧
    isDataError (loadData (none : Option Document)) = true := by
  refine ⟨?_, rfl⟩
  intro doc hmiss
  cases hti : doc.title with
  | none =>
    simp only [loadData, hti]
    rfl
  | some t =>
    cases hpk : doc.packages with
    | none =>
      simp only [loadData, hti, hpk]
      rfl
    | some recs =>
      rcases hmiss with hc | hc
      · rw [hti] at hc
        exact Option.noConfusion hc
      · rw [hpk] at hc
        exact Option.noConfusion hc

/-- C2 (witness): loading a document without a title key yields a
DataError. -/
theorem loadData_missing_key_dataError_witness :
    isDataError (loadData (some DnoTitle)) = true :=
  loadData_missing_key_dataError.1 DnoTitle (Or.inl rfl)

/-- C3 (counterexample): the string 1-2021 does not match the two
digit month, four digit year pattern of the specification, yet the
parser accepts it (month 1, year 2021) and package construction with
it as a start date succeeds instead of failing with a FormatError. -/
theorem parse_single_digit_month_accepted :
    specTwoDigitPattern "1-2021" = false ∧
    parse_date "1-2021" = .ok { year := 2021, month := 1, day := 1 } ∧
    isOkE (Package.init recLoose) = true :=
  ⟨by decide, by decide, by decide⟩

/-- C3 (amended): restricted to ASCII date strings, where the
embedding of strptime is exact, the pattern the parser enforces is a
one or two digit month from 1 to 12, a dash, and exactly four digits
that are not all zero; every ASCII string outside that language makes
parsing, and hence package construction, fail with a FormatError
naming the offending string.  In particular 2020-01 is rejected,
while the non two digit string 1-2021 is accepted.  Outside ASCII the
year directive of strptime also matches other Unicode decimal digits,
a further way the original two digit claim fails, so the rejection
statement carries the ASCII hypothesis. -/
theorem parse_outside_pattern_formatError :
    (∀ s : String, isAsciiStr s = true → specLoosePattern s = false →
      parse_date s = .error (.formatError s)) ∧
    (∀ rec : PkgRecord, isAsciiStr rec.start = true →
      specLoosePattern rec.start = false →
      Package.init rec = .error (.formatError rec.start)) := by
  constructor
  · intro s _ h
    exact parse_date_outside_loose s h
  · intro rec _ h
    have he := parse_date_outside_loose rec.start h
    simp only [Package.init, he]

/-- C3 (witness): the amended statement evaluated on 2020-01, which
has the year first and is rejected with a FormatError naming it. -/
theorem parse_outside_pattern_formatError_witness :
    parse_date "2020-01" = .error (.formatError "2020-01") ∧
    Package.init recBad = .error (.formatError "2020-01") :=
  ⟨parse_outside_pattern_formatError.1 "2020-01" (by decide) (by decide),
   parse_outside_pattern_formatError.2 recBad (by decide) (by decide)⟩

/-- C4: a package whose parsed start is strictly after its parsed end
fails construction with a ValidationError, and every successfully
constructed package has start at or before end. -/
theorem package_start_le_end :
    (∀ (rec : PkgRecord) (s e : Date), parse_date rec.start = .ok s →
      parse_date rec.end_ = .ok e → dateGT s e = true →
      Package.init rec = .error .validationError) ∧
    (∀ (rec : PkgRecord) (pkg : Package), Package.init rec = .ok pkg →
      dateGT pkg.start pkg.end_ = false) := by
  constructor
  · intro rec s e hs he hgt
    simp [Package.init, hs, he, hgt]
  · intro rec pkg h
    exact (Package.init_ok rec pkg h).2.2.2.1

/-- C4 (witness): a record running from March 2021 back to January
2021 is rejected with a ValidationError. -/
theorem package_start_le_end_witness :
    Package.init recRev = .error .validationError :=
  package_start_le_end.1 recRev { year := 2021, month := 3, day := 1 }
    { year := 2021, month := 1, day := 1 } (by decide) (by decide) (by decide)

/-- C5: after processing, the vertical slot list has one entry per
package, the slot of the package at index i is nPackages minus i, and
slots strictly decrease in document order, so the first declared
package occupies the topmost row. -/
theorem procData_slots_descending (st : GanttState) (p : ProcState)
    (h : procData st = .ok p) :
    p.yPos.length = p.nPackages ∧
    (∀ (i : Nat) (hi : i < p.yPos.length), p.yPos[i] = p.nPackages - i) ∧
    (∀ (i j : Nat) (hi : i < p.yPos.length) (hj : j < p.yPos.length),
      i < j → p.yPos[j] < p.yPos[i]) := by
  obtain ⟨-, -, -, hn, hy⟩ := procData_ok_inv st p h
  rw [hy, hn]
  refine ⟨by simp, ?_, ?_⟩
  · intro i hi
    simp
  · intro i j hi hj hij
    simp only [List.length_map, List.length_range] at hi hj
    simp only [List.getElem_map, List.getElem_range]
    omega

/-- C5 (witness): the two package document D3 gets slots 2 then 1. -/
theorem procData_slots_descending_witness :
    p3.yPos.length = p3.nPackages ∧
    p3.yPos.get ⟨0, by decide⟩ = p3.nPackages - 0 ∧
    p3.yPos.get ⟨1, by decide⟩ < p3.yPos.get ⟨0, by decide⟩ := by
  obtain ⟨h1, h2, h3⟩ := procData_slots_descending st3 p3 (by decide)
  exact ⟨h1, h2 0 (by decide), h3 0 1 (by decide) (by decide) (by decide)⟩

/-- C6: in every processed document the duration at a slot equals the
end ordinal minus the start ordinal of that slot, the exact calendar
day difference between the two month boundaries, and every duration
is non negative; the single package scenario D1 yields exactly the
duration 59 for January to March 2021. -/
theorem procData_durations_calendar_diff :
    (∀ (input : Option Document) (st : GanttState) (p : ProcState),
      loadData input = .ok st → procData st = .ok p →
      p.start.length = p.durations.length ∧
      p.end_.length = p.durations.length ∧
      (∀ (i s e : Nat), p.start[i]? = some s → p.end_[i]? = some e →
        p.durations[i]? = some ((e : Int) - (s : Int))) ∧
      (∀ (i : Nat) (d : Int), p.durations[i]? = some d → 0 ≤ d)) ∧
    (loadData (some D1) = .ok st1 ∧ procData st1 = .ok p1 ∧
      p1.durations = [59]) := by
  constructor
  · intro input st p hld hpd
    obtain ⟨hd, hs, he, -, -⟩ := procData_ok_inv st p hpd
    have hlen1 := mapME_length _ _ hs
    have hlen2 := mapME_length _ _ he
    have hlend := mapME_length _ _ hd
    obtain ⟨hf1, hf2⟩ := fillSlots_length st.labels st.packages
    refine ⟨?_, ?_, ?_, ?_⟩
    · rw [hlen1, hlend, List.length_zip, hf1, hf2, Nat.min_self]
    · rw [hlen2, hlend, List.length_zip, hf1, hf2, Nat.min_self]
    · intro i s e hsi hei
      obtain ⟨o1, ho1, hord1⟩ := mapME_getElem?_bwd _ _ i s hs hsi
      obtain ⟨o2, ho2, hord2⟩ := mapME_getElem?_bwd _ _ i e he hei
      cases o1 with
      | none => simp [ordOf] at hord1
      | some sd =>
        cases o2 with
        | none => simp [ordOf] at hord2
        | some ed =>
          simp only [ordOf, Except.ok.injEq] at hord1 hord2
          subst hord1
          subst hord2
          have hz : ((fillSlots st.labels st.packages).1.zip
              (fillSlots st.labels st.packages).2)[i]? =
              some (some sd, some ed) :=
            List.getElem?_zip_eq_some.mpr ⟨ho1, ho2⟩
          obtain ⟨dv, hdv, hdur⟩ := mapME_getElem?_fwd _ _ i _ hd hz
          simp only [durOf, Except.ok.injEq] at hdur
          rw [hdv, ← hdur]
    · intro i d hdi
      obtain ⟨pr, hpr, hdur⟩ := mapME_getElem?_bwd _ _ i d hd hdi
      obtain ⟨pr1, pr2⟩ := pr
      cases pr1 with
      | none => simp [durOf] at hdur
      | some sd =>
        cases pr2 with
        | none => simp [durOf] at hdur
        | some ed =>
          simp only [durOf, Except.ok.injEq] at hdur
          rw [List.getElem?_zip_eq_some] at hpr
          obtain ⟨hp1, hp2⟩ := hpr
          have hfeq : fillSlots st.labels st.packages =
              st.packages.foldl (fillStep st.labels)
                (List.replicate st.labels.length none,
                 List.replicate st.labels.length none) := rfl
          rcases fillFold_pair st.labels i st.packages
              (List.replicate st.labels.length none,
               List.replicate st.labels.length none) rfl with
            ⟨hu1, hu2⟩ | ⟨pkg, hmem, hw1, hw2⟩
          · rw [← hfeq] at hu1
            rw [hu1] at hp1
            rw [List.getElem?_replicate] at hp1
            split at hp1
            · simp at hp1
            · exact Option.noConfusion hp1
          · rw [← hfeq] at hw1 hw2
            rw [hw1] at hp1
            rw [hw2] at hp2
            cases hp1
            cases hp2
            obtain ⟨hvs, hve, hgt⟩ := loadData_wf input st hld pkg hmem
            have hmono := toordinal_mono hvs hve hgt
            subst hdur
            omega
  · exact ⟨by decide, by decide, rfl⟩

/-- C6 (witness): the D1 pipeline evaluated at slot 0. -/
theorem procData_durations_calendar_diff_witness :
    p1.durations[0]? = some ((737850 : Int) - (737791 : Int)) ∧
    (0 : Int) ≤ 59 :=
  ⟨(procData_durations_calendar_diff.1 (some D1) st1 p1 (by decide)
      (by decide)).2.2.1 0 737791 737850 (by decide) (by decide),
   (procData_durations_calendar_diff.1 (some D1) st1 p1 (by decide)
      (by decide)).2.2.2 0 59 (by decide)⟩

/-- C7: parsing the canonical MM dash YYYY string of any month and
year pair gives back exactly that month and year (with day 1), so the
parse then format round trip preserves month and year. -/
theorem parse_format_roundtrip (m y : Nat) (h1 : 1 ≤ m) (h2 : m ≤ 12)
    (h3 : 1 ≤ y) (h4 : y ≤ 9999) :
    parse_date (formatMY m y) = .ok { year := y, month := m, day := 1 } := by
  simp only [parse_date, parseMY_formatMY h1 h2 h3 h4]

/-- C7 (witness): the round trip on 01-2021. -/
theorem parse_format_roundtrip_witness :
    parse_date (formatMY 1 2021) =
      .ok { year := 2021, month := 1, day := 1 } :=
  parse_format_roundtrip 1 2021 (by decide) (by decide) (by decide)
    (by decide)

/-- C8: a record without a color key builds a package with the fixed
default color, and a package whose legend field is absent contributes
no legend entry during rendering: removing it from the package list
leaves the legend entries unchanged. -/
theorem package_color_default_legend_skip :
    (∀ (rec : PkgRecord) (pkg : Package), Package.init rec = .ok pkg →
      rec.color = none → pkg.color = DEFCOLOR) ∧
    (∀ (labels : List String) (ps1 ps2 : List Package) (pkg : Package),
      pkg.legend = none →
      legendEntries labels (ps1 ++ pkg :: ps2) =
        legendEntries labels (ps1 ++ ps2)) := by
  constructor
  · intro rec pkg h hc
    exact (Package.init_ok rec pkg h).2.2.2.2.1 hc
  · intro labels ps1 ps2 pkg hleg
    simp only [legendEntries, List.filterMap_append, List.filterMap_cons, hleg]

/-- C8 (witness): the D1 package defaults to the documented color and
adds no legend entry. -/
theorem package_color_default_legend_skip_witness :
    pkgA1.color = DEFCOLOR ∧
    legendEntries ["A"] [pkgA1] = legendEntries ["A"] [] :=
  ⟨package_color_default_legend_skip.1 recA1 pkgA1 (by decide) rfl,
   package_color_default_legend_skip.2 ["A"] [] [] pkgA1 rfl⟩

/-- C9: a document whose packages array is empty loads and processes,
but the axis formatting of Render fails, because the minimum of the
empty start ordinal list raises; rendering is only defined with at
least one package. -/
theorem render_empty_packages_fails (doc : Document) (st : GanttState)
    (hpk : doc.packages = some []) (h : loadData (some doc) = .ok st) :
    procData st = .ok emptyProc ∧
    formatXlim emptyProc = .error .emptySeqError := by
  cases hti : doc.title with
  | none =>
    simp only [loadData, hti] at h
    exact Except.noConfusion h
  | some t =>
    simp only [loadData, hti, hpk, mapME, Except.ok.injEq] at h
    subst h
    exact ⟨rfl, rfl⟩

/-- C9 (witness): the empty document D0. -/
theorem render_empty_packages_fails_witness :
    procData st0 = .ok emptyProc ∧
    formatXlim emptyProc = .error .emptySeqError :=
  render_empty_packages_fails D0 st0 rfl (by decide)

/-- C10: when two packages share a label, the first index lookup
aliases them, some positional slot is never written and stays None,
so the duration computation and therefore the whole Gantt
construction fail. -/
theorem duplicate_labels_break_processing (input : Option Document)
    (st : GanttState) (h : loadData input = .ok st)
    (hdup : ¬ st.labels.Nodup) :
    (fillSlots st.labels st.packages).1.any Option.isNone = true ∧
    isOkE (procData st) = false ∧ isOkE (ganttInit input) = false := by
  rw [List.nodup_iff_getElem?_ne_getElem?] at hdup
  push_neg at hdup
  obtain ⟨i, j, hij, hjl, heq⟩ := hdup
  have hne := listIndex_ne_of_dup st.labels hij hjl heq
  have hfeq : fillSlots st.labels st.packages =
      st.packages.foldl (fillStep st.labels)
        (List.replicate st.labels.length none,
         List.replicate st.labels.length none) := rfl
  obtain ⟨hu1, hu2⟩ := fillFold_unwritten st.labels j st.packages
    (List.replicate st.labels.length none,
     List.replicate st.labels.length none)
    (fun pkg _ => hne pkg.label)
  rw [← hfeq] at hu1 hu2
  have hrep : (List.replicate st.labels.length (none : Option Date))[j]? =
      some none := List.getElem?_replicate_of_lt hjl
  rw [hrep] at hu1 hu2
  have hmemz : ((fillSlots st.labels st.packages).1.zip
      (fillSlots st.labels st.packages).2)[j]? = some (none, none) :=
    List.getElem?_zip_eq_some.mpr ⟨hu1, hu2⟩
  have hfail : isOkE (mapME durOf ((fillSlots st.labels st.packages).1.zip
      (fillSlots st.labels st.packages).2)) = false :=
    mapME_not_ok _ _ (List.getElem?_mem hmemz) rfl
  have hpd := procData_not_ok st hfail
  refine ⟨?_, hpd, ganttInit_not_ok input st h hpd⟩
  rw [List.any_eq_true]
  exact ⟨none, List.getElem?_mem hu1, rfl⟩

/-- C10 (witness): the duplicate label document D2 loads, leaves an
unset slot, and fails processing and construction. -/
theorem duplicate_labels_break_processing_witness :
    (fillSlots st2.labels st2.packages).1.any Option.isNone = true ∧
    isOkE (procData st2) = false ∧ isOkE (ganttInit (some D2)) = false :=
  duplicate_labels_break_processing (some D2) st2 (by decide) (by decide)
